import Mathlib

/-!
Verification development for the ColorScan analysis pipeline
(src/ColorScan.py).  The definitions below are a shallow embedding of the
computational core of the program: mask morphology (cvDilateErode), contour
extraction and filtering (cvContour), similarity matching with manual
add/remove set algebra (getSimilarContours / appendContour), centroid
moments (findCenters), masked colour statistics (getAvColor), row-major
reordering and record emission (analyzeContours / saveColors).

Modelling conventions:
* machine floats are modelled as exact rationals; NumPy helpers
  (np.clip, np.round with half-to-even ties, np.isclose with its default
  absolute tolerance 1e-8) are embedded with their documented semantics;
* standard deviations are carried as their squares (variances), since a
  square root of a rational is in general irrational; the square root is
  taken only inside theorem statements, via Real.sqrt;
* OpenCV routines called by the program (contourArea, moments,
  matchShapes) are embedded with their documented formulas on integer
  point lists respectively on invariant-descriptor vectors.
-/

namespace ColorScan

/-! ## NumPy numeric primitives -/

/-- Embedding of np.clip x lo hi: values below lo are raised to lo, values
above hi are lowered to hi. -/
def npClip (x lo hi : ℚ) : ℚ := min (max x lo) hi

/-- Rounding to the nearest integer with ties going to the even integer,
the rounding mode used by np.round. -/
def roundHalfEven (x : ℚ) : ℤ :=
  if x - ⌊x⌋ < 1/2 then ⌊x⌋
  else if 1/2 < x - ⌊x⌋ then ⌊x⌋ + 1
  else if Even ⌊x⌋ then ⌊x⌋ else ⌊x⌋ + 1

/-- Embedding of np.round x dec: round to dec decimal places, ties to even. -/
def npRound (x : ℚ) (dec : ℕ) : ℚ :=
  (roundHalfEven (x * 10 ^ dec) : ℚ) / 10 ^ dec

/-- Embedding of np.isclose a b (rtol): true iff |a - b| <= atol + rtol*|b|,
with the NumPy default absolute tolerance atol = 1e-8.  The asymmetry
(b, the second argument, scales the relative tolerance) is NumPy's. -/
def npIsClose (a b rtol : ℚ) : Bool :=
  decide (|a - b| ≤ 1 / 100000000 + rtol * |b|)

/-! ## Contour geometry

A contour is the ordered closed list of integer pixel points produced by
the boundary trace; cv2.contourArea and the zeroth contour moment m00 of
cv2.moments both evaluate the Green/shoelace formula on it, with the sign
normalised away. -/

/-- Integer pixel point (x, y). -/
abbrev Point := ℤ × ℤ

/-- Contour: ordered closed sequence of integer 2D points. -/
abbrev Contour := List Point

/-- Cross product of two points, the summand of the shoelace formula. -/
def cross (p q : Point) : ℤ := p.1 * q.2 - p.2 * q.1

/-- Shoelace sum of a closed polygon: sum of cross products of consecutive
vertices, wrapping around. -/
def shoelace (c : Contour) : ℤ :=
  ((c.zip (c.rotate 1)).map (fun pq => cross pq.1 pq.2)).sum

/-- Embedding of cv2.contourArea c (default oriented=false): the absolute
value of the signed polygon area, |shoelace| / 2. -/
def contourArea (c : Contour) : ℚ := ((shoelace c).natAbs : ℚ) / 2

/-- Embedding of the zeroth spatial moment m00 of cv2.moments on a contour:
OpenCV evaluates the same Green formula as contourArea and normalises the
sign, so m00 is the nonnegative polygon area. -/
def m00 (c : Contour) : ℚ := ((shoelace c).natAbs : ℚ) / 2

/-! ## Contour extractor (AnalysisWindow.cvContour)

The boundary trace itself (cv2.findContours) is treated as the input; the
embedded function performs what the source does with its result: compute
the area of every contour, argsort ascending by area, keep only the
indices whose area exceeds 5, and reindex both parallel arrays. -/

/-- Ascending-by-value order on indices into a size array, with the index
itself as tie break (np.argsort returns some sorted permutation; ties are
resolved in a fixed way here to make the model deterministic). -/
def idxLe (xs : List ℚ) (i j : ℕ) : Prop :=
  xs.getD i 0 < xs.getD j 0 ∨ (xs.getD i 0 = xs.getD j 0 ∧ i ≤ j)

instance (xs : List ℚ) : DecidableRel (idxLe xs) := fun i j => by
  unfold idxLe; exact inferInstance

instance (xs : List ℚ) : IsTotal ℕ (idxLe xs) where
  total i j := by
    unfold idxLe
    rcases lt_trichotomy (xs.getD i 0) (xs.getD j 0) with h | h | h
    · exact Or.inl (Or.inl h)
    · rcases Nat.le_total i j with hij | hij
      · exact Or.inl (Or.inr ⟨h, hij⟩)
      · exact Or.inr (Or.inr ⟨h.symm, hij⟩)
    · exact Or.inr (Or.inl h)

instance (xs : List ℚ) : IsTrans ℕ (idxLe xs) where
  trans i j k hij hjk := by
    unfold idxLe at *
    rcases hij with h1 | ⟨e1, l1⟩
    · rcases hjk with h2 | ⟨e2, _⟩
      · exact Or.inl (h1.trans h2)
      · exact Or.inl (e2 ▸ h1)
    · rcases hjk with h2 | ⟨e2, l2⟩
      · exact Or.inl (e1 ▸ h2)
      · exact Or.inr ⟨e1.trans e2, l1.trans l2⟩

/-- Embedding of np.argsort ascending on a list of sizes: a permutation of
the index range sorted by value. -/
def argsortAsc (xs : List ℚ) : List ℕ :=
  List.insertionSort (idxLe xs) (List.range xs.length)

/-- Output of the contour extractor: the filtered contour list and the
parallel array of their areas, canonical indices for all later stages. -/
structure ContourData where
  contours : List Contour
  sizes : List ℚ

/-- Embedding of AnalysisWindow.cvContour applied to the traced contour
list: sizes[i] = contourArea(contours[i]); bysize = argsort(sizes);
bysize = bysize[sizes[bysize] > 5]; contours, sizes = contours[bysize],
sizes[bysize]. -/
def cvContour (found : List Contour) : ContourData :=
  let sizes := found.map contourArea
  let bysize := argsortAsc sizes
  let keep := bysize.filter (fun i => decide (5 < sizes.getD i 0))
  { contours := keep.map (fun i => found.getD i [])
    sizes := keep.map (fun i => sizes.getD i 0) }

/-! ## Similarity matcher (AnalysisWindow.getSimilarContours)

The matcher first rounds and clips both tolerance sliders, then filters
by size with np.isclose (relative tolerance s/100 against the reference
size), then filters by shape with cv2.matchShapes using method
CV_CONTOURS_MATCH_I3.

The Hu-moment descriptor a contour is compared by is computed inside
OpenCV; it is abstracted here as a function hu from contours to the list
of transformed invariant components m_i = sign(h_i) * log10|h_i| that
matchShapes actually compares.  matchShapesI3 embeds the documented I3
formula on those components: the greatest value of
|m_i(A) - m_i(B)| / |m_i(A)| over the components, where A is the FIRST
argument of cv2.matchShapes (the division-by-zero guard OpenCV applies to
raw invariants below eps is absorbed into the rational convention
x / 0 = 0). -/

/-- Size tolerance actually used: the slider value rounded to 1 decimal
place and clipped to [0, 100], as getSimilarContours does. -/
def sizeTolUsed (s0 : ℚ) : ℚ := npRound (npClip s0 0 100) 1

/-- Shape tolerance actually used: the slider value rounded to 3 decimal
places and clipped to [0, 2], as getSimilarContours does. -/
def shapeTolUsed (d0 : ℚ) : ℚ := npRound (npClip d0 0 2) 3

/-- Size filter of getSimilarContours: the indices i with
np.isclose(sizes[i], sizes[r], rtol = s/100), in ascending order
(np.where returns ascending indices). -/
def sizeSurvivors (sizes : List ℚ) (r : ℕ) (s : ℚ) : List ℕ :=
  (List.range sizes.length).filter
    (fun i => npIsClose (sizes.getD i 0) (sizes.getD r 0) (s / 100))

/-- Embedding of cv2.matchShapes(A, B, CV_CONTOURS_MATCH_I3, 0) on the
transformed invariant components of the two shapes: the running maximum,
starting from 0, of |mA - mB| / |mA|. -/
def matchShapesI3 (ma mb : List ℚ) : ℚ :=
  ((ma.zip mb).map (fun p => |p.1 - p.2| / |p.1|)).foldl max 0

/-- Shape-distance score as the specification words it: maximum over
invariant components of |value_candidate - value_reference| normalized by
|value_reference|.  Written from the spec, for comparison with the
embedded matchShapesI3 (which the source calls with the candidate as the
first, normalizing, argument). -/
def specShapeScore (mcand mref : List ℚ) : ℚ :=
  ((mcand.zip mref).map (fun p => |p.1 - p.2| / |p.2|)).foldl max 0

/-- Embedding of the filtering part of AnalysisWindow.getSimilarContours:
round/clip the tolerances, keep indices passing the size filter, then
keep those whose matchShapes score against the reference is strictly
below the shape tolerance.  The candidate is the first matchShapes
argument, the reference the second, as at the call site. -/
def getSimilar (cd : ContourData) (hu : Contour → List ℚ) (r : ℕ)
    (s0 d0 : ℚ) : List ℕ :=
  let s := sizeTolUsed s0
  let d := shapeTolUsed d0
  (sizeSurvivors cd.sizes r s).filter
    (fun i => decide (matchShapesI3 (hu (cd.contours.getD i []))
      (hu (cd.contours.getD r [])) < d))

/-! ## Manual add/remove set algebra (AnalysisWindow.appendContour)

State of the similar-contour selection: the matched set closeInds, the
manually added list addConts, the manually removed list removeConts and
the effective set closeIndsPlus, all lists of integer indices (a click
outside every contour carries the sentinel index -1, which the handler
does not special-case).  np.union1d and np.setdiff1d return sorted unique
values. -/

/-- Embedding of np.union1d: sorted unique values of the concatenation. -/
def union1d (a b : List ℤ) : List ℤ :=
  List.insertionSort (· ≤ ·) (a ++ b).dedup

/-- Embedding of np.setdiff1d a b: sorted unique values of a not in b. -/
def setdiff1d (a b : List ℤ) : List ℤ :=
  List.insertionSort (· ≤ ·) ((a.filter (fun x => decide (x ∉ b))).dedup)

/-- Matcher selection state, as held by the AnalysisWindow fields of the
same names. -/
structure MatchState where
  closeInds : List ℤ
  addConts : List ℤ
  removeConts : List ℤ
  closeIndsPlus : List ℤ
  deriving DecidableEq

/-- Embedding of the shift-click handler AnalysisWindow.appendContour at
clicked contour index inCont.  When no similar-contour list exists the
click is redirected to selectContour, which resets the three selection
lists (the effective set field is not touched there).  Otherwise the four
branches toggle inCont in addConts or removeConts and the effective set
is recomputed as setdiff1d(union1d(closeInds, addConts), removeConts). -/
def appendContour (st : MatchState) (inCont : ℤ) : MatchState :=
  if st.closeInds = [] then
    { st with closeInds := [], addConts := [], removeConts := [] }
  else
    let add :=
      if inCont ∉ st.closeInds ∧ inCont ∉ st.addConts then st.addConts ++ [inCont]
      else if inCont ∉ st.closeInds ∧ inCont ∈ st.addConts then st.addConts.erase inCont
      else st.addConts
    let rem :=
      if inCont ∈ st.closeInds ∧ inCont ∉ st.removeConts then st.removeConts ++ [inCont]
      else if inCont ∈ st.closeInds ∧ inCont ∈ st.removeConts then st.removeConts.erase inCont
      else st.removeConts
    { closeInds := st.closeInds
      addConts := add
      removeConts := rem
      closeIndsPlus := setdiff1d (union1d st.closeInds add) rem }

/-- Embedding of the state update getSimilarContours performs after a
tolerance change: the matched set is recomputed, removeConts is reset
(the source comment: changing the thresholds could result in removing
contours that are not there), addConts is kept, and the effective set is
union1d(closeInds, addConts). -/
def getSimilarUpdate (st : MatchState) (newClose : List ℤ) : MatchState :=
  { closeInds := newClose
    addConts := st.addConts
    removeConts := []
    closeIndsPlus := union1d newClose st.addConts }

/-- Matcher events: a manual shift-click on contour index i, or a
tolerance change re-running getSimilarContours with slider values s0, d0. -/
inductive MEvent where
  | click (i : ℤ)
  | retune (s0 d0 : ℚ)
  deriving DecidableEq

/-- One matcher step: dispatch an event on the state.  A retune recomputes
the matched set from the extractor output through getSimilar (indices cast
to ℤ as the arrays hold machine integers). -/
def mStep (cd : ContourData) (hu : Contour → List ℚ) (r : ℕ)
    (st : MatchState) : MEvent → MatchState
  | .click i => appendContour st i
  | .retune s0 d0 => getSimilarUpdate st ((getSimilar cd hu r s0 d0).map Int.ofNat)

/-- Run of a sequence of matcher events. -/
def mRun (cd : ContourData) (hu : Contour → List ℚ) (r : ℕ)
    (st : MatchState) (es : List MEvent) : MatchState :=
  es.foldl (mStep cd hu r) st

/-- Scope condition under which an event is one of the operations the
interactive session can actually perform as a manual add/remove: a click
only acts as an add/remove toggle when a similar-contour list exists
(otherwise appendContour redirects to reference selection), and the code
only ever yields clicked indices that are -1 (no contour under the mouse)
or a valid index into the filtered contour list, as set in drawContours. -/
def eventOK (n : ℕ) (st : MatchState) : MEvent → Prop
  | .click i => st.closeInds ≠ [] ∧ (i = -1 ∨ (0 ≤ i ∧ i < (n : ℤ)))
  | .retune _ _ => True

/-- Python list indexing with negative wrap-around, as contours[i] behaves
for -len <= i < len. -/
def pyGetD (l : List Contour) (i : ℤ) : Contour :=
  if i < 0 then l.getD (l.length - (-i).toNat) [] else l.getD i.toNat []

/-- Well-formedness of a matcher state over a contour list of length n:
the matched set holds valid indices, the manually added list holds the
sentinel -1 or valid indices, the effective set likewise, and either
manual additions or a nonempty effective set force at least one contour
to exist. -/
def stGood (n : ℕ) (st : MatchState) : Prop :=
  (∀ x ∈ st.closeInds, 0 ≤ x ∧ x < (n : ℤ)) ∧
  (∀ x ∈ st.addConts, x = -1 ∨ (0 ≤ x ∧ x < (n : ℤ))) ∧
  (st.addConts ≠ [] → 0 < n) ∧
  (∀ x ∈ st.closeIndsPlus, x = -1 ∨ (0 ≤ x ∧ x < (n : ℤ))) ∧
  (st.closeIndsPlus ≠ [] → 0 < n)

/-! ## Mask morphology (AnalysisWindow.cvDilateErode)

A mask is a grid (list of rows) of channel values.  cv2.dilate and
cv2.erode with a rectangular structuring element replace each cell by the
maximum respectively minimum over the element centred there; pixels
outside the image do not influence the result (OpenCV pads with the
neutral border value), which for nonnegative mask values is captured by
padding with 0 for dilation and 255 for erosion.  The kernel argument at
both call sites is the fixed pair (5,5); it is modelled as the 5 by 5
rectangular structuring element, the reading the specification takes. -/

/-- Grid of values: a list of rows. -/
abbrev Grid (α : Type) := List (List α)

/-- Cell access with a pad value for out-of-range coordinates. -/
def cellD (g : Grid ℚ) (y x : ℤ) (pad : ℚ) : ℚ :=
  if 0 ≤ y ∧ 0 ≤ x then (g.getD y.toNat []).getD x.toNat pad else pad

/-- Offsets of the 5 by 5 structuring element centred on the anchor. -/
def se5 : List ℤ := [-2, -1, 0, 1, 2]

/-- Fold of a binary operation over the 5 by 5 neighbourhood of (y, x). -/
def fold5 (op : ℚ → ℚ → ℚ) (init : ℚ) (g : Grid ℚ) (y x : ℤ) (pad : ℚ) : ℚ :=
  (se5.map (fun dy => (se5.map (fun dx => cellD g (y + dy) (x + dx) pad)).foldl op init)).foldl op init

/-- Embedding of cv2.dilate with the fixed kernel of cvDilateErode:
each cell becomes the maximum of its 5 by 5 neighbourhood. -/
def cvDilate5 (g : Grid ℚ) : Grid ℚ :=
  (List.range g.length).map (fun y =>
    (List.range (g.getD y []).length).map (fun x => fold5 max 0 g y x 0))

/-- Embedding of cv2.erode with the fixed kernel of cvDilateErode:
each cell becomes the minimum of its 5 by 5 neighbourhood. -/
def cvErode5 (g : Grid ℚ) : Grid ℚ :=
  (List.range g.length).map (fun y =>
    (List.range (g.getD y []).length).map (fun x => fold5 min 255 g y x 255))

/-- Loop body of cvDilateErode on the accumulator
(mask, dilateCounter, erodeCounter): a d character dilates the mask and
bumps the dilate counter, an e erodes it and bumps the erode counter,
any other character does nothing. -/
def deStep (acc : Grid ℚ × ℕ × ℕ) (c : Char) : Grid ℚ × ℕ × ℕ :=
  if c = 'd' then (cvDilate5 acc.1, acc.2.1 + 1, acc.2.2)
  else if c = 'e' then (cvErode5 acc.1, acc.2.1, acc.2.2 + 1)
  else acc

/-- Embedding of AnalysisWindow.cvDilateErode: both counters are reset to
zero, then the recorded code string is walked left to right, one
dilation or erosion per character, in that exact order.
Result: (mask, dilateCounter, erodeCounter). -/
def cvDilateErode (code : List Char) (mask : Grid ℚ) : Grid ℚ × ℕ × ℕ :=
  code.foldl deStep (mask, 0, 0)

/-! ## Row-major reordering (AnalysisWindow.analyzeContours)

Before records are emitted the parallel per-zone arrays are permuted by
np.lexsort((centers[:,0], centers[:,1])): a stable sort whose primary key
is the last array, the vertical coordinate y, and whose secondary key is
the horizontal coordinate x.  Centers are stored as (x, y) pairs. -/

/-- Order on indices into a center array: by y, then x, then the index
itself; the index tie break makes the order antisymmetric, which renders
exactly the stable lexicographic sort np.lexsort performs. -/
def centerLe (cs : List (ℤ × ℤ)) (i j : ℕ) : Prop :=
  (cs.getD i (0, 0)).2 < (cs.getD j (0, 0)).2 ∨
    ((cs.getD i (0, 0)).2 = (cs.getD j (0, 0)).2 ∧
      ((cs.getD i (0, 0)).1 < (cs.getD j (0, 0)).1 ∨
        ((cs.getD i (0, 0)).1 = (cs.getD j (0, 0)).1 ∧ i ≤ j)))

instance (cs : List (ℤ × ℤ)) : DecidableRel (centerLe cs) := fun i j => by
  unfold centerLe; exact inferInstance

instance (cs : List (ℤ × ℤ)) : IsTotal ℕ (centerLe cs) where
  total i j := by
    unfold centerLe
    rcases lt_trichotomy (cs.getD i (0, 0)).2 (cs.getD j (0, 0)).2 with h | h | h
    · exact Or.inl (Or.inl h)
    · rcases lt_trichotomy (cs.getD i (0, 0)).1 (cs.getD j (0, 0)).1 with h2 | h2 | h2
      · exact Or.inl (Or.inr ⟨h, Or.inl h2⟩)
      · rcases Nat.le_total i j with hij | hij
        · exact Or.inl (Or.inr ⟨h, Or.inr ⟨h2, hij⟩⟩)
        · exact Or.inr (Or.inr ⟨h.symm, Or.inr ⟨h2.symm, hij⟩⟩)
      · exact Or.inr (Or.inr ⟨h.symm, Or.inl h2⟩)
    · exact Or.inr (Or.inl h)

instance (cs : List (ℤ × ℤ)) : IsTrans ℕ (centerLe cs) where
  trans i j k hij hjk := by
    unfold centerLe at *
    rcases hij with h1 | ⟨e1, h1⟩
    · rcases hjk with h2 | ⟨e2, _⟩
      · exact Or.inl (h1.trans h2)
      · exact Or.inl (e2 ▸ h1)
    · rcases hjk with h2 | ⟨e2, h2⟩
      · exact Or.inl (e1 ▸ h2)
      · refine Or.inr ⟨e1.trans e2, ?_⟩
        rcases h1 with h1 | ⟨f1, l1⟩
        · rcases h2 with h2 | ⟨f2, _⟩
          · exact Or.inl (h1.trans h2)
          · exact Or.inl (f2 ▸ h1)
        · rcases h2 with h2 | ⟨f2, l2⟩
          · exact Or.inl (f1 ▸ h2)
          · exact Or.inr ⟨f1.trans f2, l1.trans l2⟩

/-- Embedding of sort_inds = np.lexsort((centers[:,0], centers[:,1])):
the index permutation realising the stable (y, x) ascending sort. -/
def lexsortInds (cs : List (ℤ × ℤ)) : List ℕ :=
  List.insertionSort (centerLe cs) (List.range cs.length)

/-- Application of an index permutation to a parallel array, as the NumPy
fancy indexing arr[sort_inds] does. -/
def applyPerm {α : Type} (inds : List ℕ) (xs : List α) (d : α) : List α :=
  inds.map (fun i => xs.getD i d)

/-! ## Colorimetric sampler (AnalysisWindow.getAvColor, analyzeContours)

An image is a grid of channel triples in the internal BGR storage order
of OpenCV.  getAvColor builds a masked array in which a pixel is valid
exactly when its mask value is 255 (the code masks where 1 - m/255 is
nonzero) and takes per-channel mean and standard deviation over the valid
pixels only.  The standard deviation is carried as the variance, its
square; on a zone with no valid pixel NumPy produces masked (undefined)
statistics and raises nothing, which the rational model renders as the
0 that division by a zero count yields. -/

/-- Pixel: triple of channel values in storage order. -/
abbrev Pixel := ℚ × ℚ × ℚ

/-- Values of one channel at the mask-valid positions of a grid. -/
def includedVals (ch : Grid ℚ) (mask : Grid ℚ) : List ℚ :=
  ((ch.zip mask).map (fun rm =>
    (rm.1.zip rm.2).filterMap (fun cm => if cm.2 = 255 then some cm.1 else none))).flatten

/-- Mean of a list of rationals (0 for the empty list, by the x/0 = 0
convention standing in for the masked value NumPy produces). -/
def listMean (xs : List ℚ) : ℚ := xs.sum / xs.length

/-- Population variance of a list of rationals (ddof = 0, as np.ma.std
uses): mean of squared deviations from the mean. -/
def listVar (xs : List ℚ) : ℚ :=
  ((xs.map (fun x => (x - listMean xs) ^ 2)).sum) / xs.length

/-- Channel extractors of a pixel grid. -/
def chan1 (im : Grid Pixel) : Grid ℚ := im.map (fun row => row.map (fun p => p.1))

/-- Second channel of a pixel grid. -/
def chan2 (im : Grid Pixel) : Grid ℚ := im.map (fun row => row.map (fun p => p.2.1))

/-- Third channel of a pixel grid. -/
def chan3 (im : Grid Pixel) : Grid ℚ := im.map (fun row => row.map (fun p => p.2.2))

/-- Embedding of AnalysisWindow.getAvColor on a masked image: the triple
of per-channel means over valid pixels and the triple of per-channel
variances (squares of the standard deviations the code returns). -/
def getAvColor (im : Grid Pixel) (mask : Grid ℚ) : Pixel × Pixel :=
  ((listMean (includedVals (chan1 im) mask),
    listMean (includedVals (chan2 im) mask),
    listMean (includedVals (chan3 im) mask)),
   (listVar (includedVals (chan1 im) mask),
    listVar (includedVals (chan2 im) mask),
    listVar (includedVals (chan3 im) mask)))

/-- Crop window im[y:y+h, x:x+w] of a grid, as the NumPy slice. -/
def cropG {α : Type} (g : Grid α) (x y w h : ℕ) : Grid α :=
  ((g.drop y).take h).map (fun row => (row.drop x).take w)

/-- Reversal of a channel triple, as avcolorRGB[::-1] converts the BGR
storage order to RGB at the reporting boundary. -/
def rev3 (p : Pixel) : Pixel := (p.2.2, p.2.1, p.1)

/-- Per-zone data entering the sampling loop of analyzeContours: the
zone's full-image mask and its crop window (x, y, w, h). -/
structure Zone where
  mask : Grid ℚ
  rect : ℕ × ℕ × ℕ × ℕ
  deriving DecidableEq

/-- Number of valid (value 255) mask pixels inside the zone's crop
window; the zone is empty during sampling when this is zero. -/
def zoneIncludedCount (z : Zone) : ℕ :=
  (includedVals (cropG z.mask z.rect.1 z.rect.2.1 z.rect.2.2.1 z.rect.2.2.2)
    (cropG z.mask z.rect.1 z.rect.2.1 z.rect.2.2.1 z.rect.2.2.2)).length

/-- Per-zone statistics gathered by the analyzeContours loop. -/
structure ZoneStats where
  avRGB : Pixel
  varRGB : Pixel
  avHSV : Pixel
  varHSV : Pixel
  avLAB : Pixel
  varLAB : Pixel
  maskArea : ℚ
  deriving DecidableEq

/-- Embedding of one iteration of the analyzeContours sampling loop on a
zone: crop image and mask to the zone's window, take masked statistics in
the three colorspace views, reverse the BGR channel order to RGB, and
compute the masked pixel area sum(mask)/255. -/
def analyzeZone (imBGR imHSV imLAB : Grid Pixel) (z : Zone) : ZoneStats :=
  let x := z.rect.1
  let y := z.rect.2.1
  let w := z.rect.2.2.1
  let h := z.rect.2.2.2
  let mc := cropG z.mask x y w h
  let rgb := getAvColor (cropG imBGR x y w h) mc
  let hsv := getAvColor (cropG imHSV x y w h) mc
  let lab := getAvColor (cropG imLAB x y w h) mc
  { avRGB := rev3 rgb.1
    varRGB := rev3 rgb.2
    avHSV := hsv.1
    varHSV := hsv.2
    avLAB := lab.1
    varLAB := lab.2
    maskArea := (mc.map (fun row => row.sum)).sum / 255 }

/-! ## CSV emission (AnalysisWindow.saveColors)

saveColors assembles the header string and one row per zone.  The local
variables rgb and std_rgb are assigned only inside the branch guarded by
the RGB output toggle, yet the grayscale block reads them
unconditionally; with the toggle disabled Python raises
UnboundLocalError there, modelled by the error value unboundLocalRGB.
HSV and Lab unit conversions that are exact on rationals are embedded
(hue times 2, Lab offset by 128, means rescaled with np.round to 8
decimals); the np.round(..., 8) the code applies to the printed HSV/Lab
standard deviations acts on an irrational square root and is a display
rounding left outside the rational model, whose variance fields carry
the exact squared scale factors instead. -/

/-- Error raised by the embedded saveColors: the UnboundLocalError hit
when the grayscale block reads the rgb locals with the RGB toggle off. -/
inductive SaveErr where
  | unboundLocalRGB
  deriving DecidableEq

/-- The grayscale conversion weights RGB2grayscale_weights. -/
def grayWeights : Pixel := (299/1000, 587/1000, 114/1000)

/-- Dot product of channel triples, as np.dot on length-3 vectors. -/
def dot3 (a b : Pixel) : ℚ := a.1 * b.1 + a.2.1 * b.2.1 + a.2.2 * b.2.2

/-- Componentwise square of a channel triple. -/
def sq3 (p : Pixel) : Pixel := (p.1 ^ 2, p.2.1 ^ 2, p.2.2 ^ 2)

/-- Unit conversion of an HSV mean triple at the output boundary:
hue from half-range to degrees, S and V to [0,1] rounded to 8 decimals. -/
def hsvMeanConv (p : Pixel) : Pixel :=
  (p.1 / 180 * 360, npRound (p.2.1 / 255) 8, npRound (p.2.2 / 255) 8)

/-- Variance counterpart of the HSV std conversion: the hue std doubles,
so its variance quadruples; S and V stds divide by 255, so their
variances divide by 255 squared (display rounding omitted). -/
def hsvVarConv (v : Pixel) : Pixel :=
  (v.1 * 4, v.2.1 / 65025, v.2.2 / 65025)

/-- Unit conversion of a Lab mean triple at the output boundary:
L rescaled to [0,100] rounded to 8 decimals, a and b shifted by -128. -/
def labMeanConv (p : Pixel) : Pixel :=
  (npRound (p.1 / 255 * 100) 8, p.2.1 - 128, p.2.2 - 128)

/-- Variance counterpart of the Lab std conversion: the L std is scaled
by 100/255, so its variance by the square of that (display rounding
omitted); a and b stds are unchanged. -/
def labVarConv (v : Pixel) : Pixel :=
  (v.1 * 10000 / 65025, v.2.1, v.2.2)

/-- One emitted CSV record: the 1-based id, the optional RGB group
(means and variances), the always-present grayscale pair (the printed
std Gray is the square root of stdGraySq), the optional HSV and Lab
groups after unit conversion, and the masked pixel area. -/
structure Row where
  id : ℕ
  rgb : Option (Pixel × Pixel)
  gray : ℚ
  stdGraySq : ℚ
  hsv : Option (Pixel × Pixel)
  lab : Option (Pixel × Pixel)
  area : ℚ
  deriving DecidableEq

/-- Header string saveColors builds: the bracketed groups appear exactly
when the corresponding toggle is on, and each group carries a trailing
comma so that consecutive groups are separated by one blank column. -/
def csvHeader (saveRGB saveHSV saveLAB : Bool) : String :=
  "id" ++ (if saveRGB then ",R,G,B,std R,std G,std B," else "")
    ++ ",Gray,std Gray,"
    ++ (if saveHSV then ",H,S,V,std H,std S,std V," else "")
    ++ (if saveLAB then ",L,a,b,std L,std a,std b," else "")
    ++ ",Area [pixels]"

/-- Row built from the statistics of one zone: grayscale is the dot
product of the (already RGB-ordered) means with the grayscale weights,
and the squared grayscale std is the dot product of the per-channel
variances with the squared weights, the error-propagation formula. -/
def mkRow (saveRGB saveHSV saveLAB : Bool) (id : ℕ) (st : ZoneStats) : Row :=
  { id := id
    rgb := if saveRGB then some (st.avRGB, st.varRGB) else none
    gray := dot3 st.avRGB grayWeights
    stdGraySq := dot3 st.varRGB (sq3 grayWeights)
    hsv := if saveHSV then some (hsvMeanConv st.avHSV, hsvVarConv st.varHSV) else none
    lab := if saveLAB then some (labMeanConv st.avLAB, labVarConv st.varLAB) else none
    area := st.maskArea }

/-- Embedding of AnalysisWindow.saveColors: with the RGB toggle off the
grayscale block reads the unassigned locals rgb and std_rgb and the save
aborts with UnboundLocalError before any file is written; otherwise the
header and one record per zone are emitted. -/
def saveColors (saveRGB saveHSV saveLAB : Bool) (stats : List ZoneStats) :
    Except SaveErr (String × List Row) :=
  if saveRGB then
    .ok (csvHeader saveRGB saveHSV saveLAB,
      stats.enum.map (fun p => mkRow saveRGB saveHSV saveLAB (p.1 + 1) p.2))
  else
    .error .unboundLocalRGB

/-- Embedding of the record-producing part of AnalysisWindow.analyzeContours:
the per-zone parallel arrays are permuted by the stable (y, x) sort of
the zone centers, each zone is sampled in the three colorspace views,
and saveColors turns the statistics into the CSV data. -/
def analyzeContours (imBGR imHSV imLAB : Grid Pixel) (centers : List (ℤ × ℤ))
    (zones : List Zone) (saveRGB saveHSV saveLAB : Bool) :
    Except SaveErr (String × List Row) :=
  let inds := lexsortInds centers
  let zonesS := applyPerm inds zones ⟨[], (0, 0, 0, 0)⟩
  let stats := zonesS.map (analyzeZone imBGR imHSV imLAB)
  saveColors saveRGB saveHSV saveLAB stats

/-! ## Helper lemmas -/

/-- Mask component of the morphology fold does not depend on the counter
components of the initial accumulator. -/
lemma de_foldl_mask (code : List Char) : ∀ (m : Grid ℚ) (a b : ℕ),
    (code.foldl deStep (m, a, b)).1 = (cvDilateErode code m).1 := by
  induction code with
  | nil => intro m a b; simp [cvDilateErode]
  | cons c cs ih =>
    intro m a b
    simp only [cvDilateErode, List.foldl_cons, deStep]
    by_cases hd : c = 'd'
    · simp [hd, ih]
    · by_cases he : c = 'e'
      · simp [hd, he, ih]
      · simp only [if_neg hd, if_neg he]
        rw [ih m a b]
        exact (ih m 0 0).symm

/-- Dilation counter of the morphology fold counts the d characters. -/
lemma de_foldl_countd (code : List Char) : ∀ (m : Grid ℚ) (a b : ℕ),
    (code.foldl deStep (m, a, b)).2.1 = a + code.count 'd' := by
  induction code with
  | nil => intro m a b; simp
  | cons c cs ih =>
    intro m a b
    simp only [List.foldl_cons, deStep, List.count_cons]
    by_cases hd : c = 'd'
    · simp [hd, ih]; omega
    · by_cases he : c = 'e'
      · have : ¬ ('e' == 'd') = true := by decide
        simp [hd, he, ih]
      · simp only [if_neg hd, if_neg he, ih]
        have : ¬ (c == 'd') = true := by simpa using hd
        simp [this]

/-- Erosion counter of the morphology fold counts the e characters. -/
lemma de_foldl_counte (code : List Char) : ∀ (m : Grid ℚ) (a b : ℕ),
    (code.foldl deStep (m, a, b)).2.2 = b + code.count 'e' := by
  induction code with
  | nil => intro m a b; simp
  | cons c cs ih =>
    intro m a b
    simp only [List.foldl_cons, deStep, List.count_cons]
    by_cases hd : c = 'd'
    · have : ¬ ('d' == 'e') = true := by decide
      simp [hd, ih]
    · by_cases he : c = 'e'
      · simp [hd, he, ih]; omega
      · simp only [if_neg hd, if_neg he, ih]
        have : ¬ (c == 'e') = true := by simpa using he
        simp [this]

/-- Map access through getD factors over the mapped function for indices
in range, for any defaults. -/
lemma getD_map_of_lt {α β : Type} (f : α → β) (l : List α) (i : ℕ)
    (h : i < l.length) (d : β) (d2 : α) :
    (l.map f).getD i d = f (l.getD i d2) := by
  rw [List.getD_eq_getElem _ _ (by simpa using h), List.getD_eq_getElem _ _ h]
  simp

/-- Members of the filtered argsort index list are in range. -/
lemma mem_keep_lt (xs : List ℚ) (p : ℕ → Bool) (i : ℕ)
    (hi : i ∈ (argsortAsc xs).filter p) : i < xs.length := by
  have h1 : i ∈ argsortAsc xs := (List.mem_filter.mp hi).1
  have h2 : i ∈ List.range xs.length :=
    ((List.perm_insertionSort (idxLe xs) (List.range xs.length)).mem_iff).mp h1
  exact List.mem_range.mp h2

/-- Half-even rounding lands on the floor or the floor plus one. -/
lemma roundHalfEven_floor_or (x : ℚ) :
    roundHalfEven x = ⌊x⌋ ∨ roundHalfEven x = ⌊x⌋ + 1 := by
  unfold roundHalfEven
  split_ifs <;> simp

/-- Half-even rounding of a nonnegative number is nonnegative. -/
lemma roundHalfEven_nonneg (x : ℚ) (hx : 0 ≤ x) : 0 ≤ roundHalfEven x := by
  have h0 : (0 : ℤ) ≤ ⌊x⌋ := Int.floor_nonneg.mpr hx
  rcases roundHalfEven_floor_or x with h | h <;> omega

/-- The size tolerance the code actually uses is a nonnegative multiple
of one tenth, because the slider value is clipped to [0, 100] and rounded
to one decimal place. -/
lemma sizeTolUsed_shape (s0 : ℚ) : ∃ k : ℕ, sizeTolUsed s0 = (k : ℚ) / 10 := by
  have hc : 0 ≤ npClip s0 0 100 := by
    unfold npClip
    exact le_min (le_max_right _ _) (by norm_num)
  have h10 : 0 ≤ npClip s0 0 100 * 10 ^ 1 := by positivity
  have hr := roundHalfEven_nonneg _ h10
  refine ⟨(roundHalfEven (npClip s0 0 100 * 10 ^ 1)).toNat, ?_⟩
  have hcast : (((roundHalfEven (npClip s0 0 100 * 10 ^ 1)).toNat : ℕ) : ℚ) =
      ((roundHalfEven (npClip s0 0 100 * 10 ^ 1) : ℤ) : ℚ) := by
    exact_mod_cast congrArg (fun z : ℤ => (z : ℚ)) (Int.toNat_of_nonneg hr)
  unfold sizeTolUsed npRound
  rw [hcast]
  norm_num

/-- Core arithmetic of the size filter: on half-integer areas with a
tolerance that is a multiple of one tenth of a percent, the absolute
NumPy tolerance 1e-8 cannot bridge the integer gap, so it can be
dropped from the passing condition. -/
lemma halfint_atol_absorb (n m k : ℕ)
    (h : |(n : ℚ) / 2 - (m : ℚ) / 2| ≤
      1 / 100000000 + (k : ℚ) / 10 / 100 * |(m : ℚ) / 2|) :
    |(n : ℚ) / 2 - (m : ℚ) / 2| ≤ (k : ℚ) / 10 / 100 * ((m : ℚ) / 2) := by
  rw [abs_of_nonneg (show (0:ℚ) ≤ (m : ℚ) / 2 by positivity)] at h
  have habs2 : |(n : ℚ) / 2 - (m : ℚ) / 2| =
      ((((n : ℤ) - (m : ℤ)).natAbs : ℕ) : ℚ) / 2 := by
    rw [Int.cast_natAbs]
    push_cast
    rw [show (n : ℚ) / 2 - (m : ℚ) / 2 = ((n : ℚ) - m) / 2 by ring, abs_div]
    norm_num
  set D : ℕ := ((n : ℤ) - (m : ℤ)).natAbs with hD
  rw [habs2] at h ⊢
  have h2 : (1000 * D : ℚ) ≤ (k * m : ℚ) + 1 / 50000 := by nlinarith [h]
  have h3 : 1000 * D ≤ k * m := by
    have hlt : ((1000 * D : ℕ) : ℚ) < ((k * m : ℕ) : ℚ) + 1 := by push_cast; linarith
    have : (1000 * D : ℕ) < k * m + 1 := by exact_mod_cast hlt
    omega
  have h4 : ((1000 * D : ℕ) : ℚ) ≤ ((k * m : ℕ) : ℚ) := by exact_mod_cast h3
  push_cast at h4
  nlinarith [h4]

/-- Unfolding of the embedded np.isclose test. -/
lemma npIsClose_iff (a b rtol : ℚ) :
    npIsClose a b rtol = true ↔ |a - b| ≤ 1 / 100000000 + rtol * |b| := by
  simp [npIsClose]

/-- Membership in the size-filter survivor list. -/
lemma mem_sizeSurvivors (sizes : List ℚ) (r : ℕ) (s : ℚ) (i : ℕ) :
    i ∈ sizeSurvivors sizes r s ↔
      i < sizes.length ∧
        npIsClose (sizes.getD i 0) (sizes.getD r 0) (s / 100) = true := by
  simp [sizeSurvivors, List.mem_filter, List.mem_range]

/-- Elements read through getD at in-range indices are members. -/
lemma getD_mem_of_lt {α : Type} (l : List α) (i : ℕ) (h : i < l.length) (d : α) :
    l.getD i d ∈ l := by
  rw [List.getD_eq_getElem _ _ h]
  exact List.getElem_mem h

/-- Running maximum comparison: a foldl of max stays below d iff the
seed and every element do. -/
lemma foldl_max_lt_iff (l : List ℚ) : ∀ a d : ℚ,
    l.foldl max a < d ↔ a < d ∧ ∀ x ∈ l, x < d := by
  induction l with
  | nil => intro a d; simp
  | cons x xs ih =>
    intro a d
    rw [List.foldl_cons, ih, max_lt_iff]
    constructor
    · rintro ⟨⟨ha, hx⟩, hall⟩
      refine ⟨ha, fun y hy => ?_⟩
      rcases List.mem_cons.mp hy with rfl | hy
      · exact hx
      · exact hall y hy
    · rintro ⟨ha, hall⟩
      exact ⟨⟨ha, hall x (List.mem_cons_self x xs)⟩,
        fun y hy => hall y (List.mem_cons_of_mem x hy)⟩

/-- The I3 score is below the threshold iff the threshold is positive and
every componentwise normalized difference is below it. -/
lemma matchShapesI3_lt_iff (ma mb : List ℚ) (d : ℚ) :
    matchShapesI3 ma mb < d ↔
      0 < d ∧ ∀ p ∈ ma.zip mb, |p.1 - p.2| / |p.1| < d := by
  unfold matchShapesI3
  rw [foldl_max_lt_iff]
  constructor
  · rintro ⟨h0, hall⟩
    exact ⟨h0, fun p hp => hall _ (List.mem_map_of_mem _ hp)⟩
  · rintro ⟨h0, hall⟩
    refine ⟨h0, fun x hx => ?_⟩
    obtain ⟨p, hp, rfl⟩ := List.mem_map.mp hx
    exact hall p hp

/-- Identical descriptors score 0 under I3. -/
lemma matchShapesI3_self (v : List ℚ) : matchShapesI3 v v = 0 := by
  unfold matchShapesI3
  induction v with
  | nil => simp
  | cons a v ih =>
    simp only [List.zip_cons_cons, List.map_cons, sub_self, abs_zero, zero_div,
      List.foldl_cons, max_self]
    exact ih

/-- Membership in the matcher output: size survivor and I3 score below
the rounded shape tolerance. -/
lemma mem_getSimilar (cd : ContourData) (hu : Contour → List ℚ) (r : ℕ)
    (s0 d0 : ℚ) (i : ℕ) :
    i ∈ getSimilar cd hu r s0 d0 ↔
      i ∈ sizeSurvivors cd.sizes r (sizeTolUsed s0) ∧
        matchShapesI3 (hu (cd.contours.getD i []))
          (hu (cd.contours.getD r [])) < shapeTolUsed d0 := by
  simp [getSimilar, List.mem_filter]

/-- Membership in the embedded np.union1d. -/
lemma mem_union1d (a b : List ℤ) (x : ℤ) :
    x ∈ union1d a b ↔ x ∈ a ∨ x ∈ b := by
  unfold union1d
  rw [(List.perm_insertionSort _ _).mem_iff, List.mem_dedup, List.mem_append]

/-- Membership in the embedded np.setdiff1d. -/
lemma mem_setdiff1d (a b : List ℤ) (x : ℤ) :
    x ∈ setdiff1d a b ↔ x ∈ a ∧ x ∉ b := by
  unfold setdiff1d
  rw [(List.perm_insertionSort _ _).mem_iff, List.mem_dedup, List.mem_filter]
  simp

/-! ## Claim theorems and witnesses -/

/-- Claim C6: the contour extractor discards every contour of area at
most 5 before any further use, and the surviving contours together with
their parallel area array are sorted ascending by area: every reported
size exceeds 5, the size array is pairwise nondecreasing, and it is
pointwise the area of the parallel contour array. -/
theorem cvContour_filters_and_sorts (found : List Contour) :
    (∀ a ∈ (cvContour found).sizes, 5 < a) ∧
    (cvContour found).sizes.Pairwise (· ≤ ·) ∧
    (cvContour found).sizes = (cvContour found).contours.map contourArea := by
  set sizes := found.map contourArea with hsizes
  have hlen : sizes.length = found.length := by simp [hsizes]
  refine ⟨?_, ?_, ?_⟩
  · intro a ha
    simp only [cvContour, List.mem_map] at ha
    obtain ⟨i, hi, rfl⟩ := ha
    have := (List.mem_filter.mp hi).2
    simpa using this
  · have hsorted : ((argsortAsc sizes).filter
        (fun i => decide (5 < sizes.getD i 0))).Pairwise (idxLe sizes) := by
      refine List.Pairwise.filter _ ?_
      exact List.sorted_insertionSort (idxLe sizes) (List.range sizes.length)
    simp only [cvContour]
    rw [List.pairwise_map]
    refine hsorted.imp ?_
    intro i j hij
    rcases hij with h | ⟨h, _⟩
    · exact le_of_lt h
    · exact le_of_eq h
  · simp only [cvContour]
    rw [List.map_map]
    refine List.map_congr_left ?_
    intro i hi
    have hlt : i < sizes.length := mem_keep_lt sizes _ i hi
    rw [getD_map_of_lt contourArea found i (by rwa [← hlen]) 0 []]
    rfl

/-- Witness for C6 at a concrete traced contour list: a unit right
triangle (area 1/2, discarded) and a 4 by 4 square (area 16, kept). -/
theorem cvContour_filters_and_sorts_witness :
    (16 : ℚ) ∈ (cvContour [[((0:ℤ),(0:ℤ)),(1,0),(1,1)],
      [((0:ℤ),(0:ℤ)),(4,0),(4,4),(0,4)]]).sizes ∧ (5 : ℚ) < 16 := by
  have hmem : (16 : ℚ) ∈ (cvContour [[((0:ℤ),(0:ℤ)),(1,0),(1,1)],
      [((0:ℤ),(0:ℤ)),(4,0),(4,4),(0,4)]]).sizes := by
    norm_num [cvContour, argsortAsc, idxLe, contourArea, shoelace, cross,
      List.insertionSort, List.orderedInsert, List.range_succ, List.rotate]
  exact ⟨hmem,
    (cvContour_filters_and_sorts [[((0:ℤ),(0:ℤ)),(1,0),(1,1)],
      [((0:ℤ),(0:ℤ)),(4,0),(4,4),(0,4)]]).1 16 hmem⟩

/-- Claim C7: cvDilateErode applies the recorded dilation/erosion
sequence to the mask in exactly the order recorded (running a
concatenation of records equals running the second record on the result
of the first), each single operation is the morphological transform with
the fixed 5 by 5 structuring element, and the per-operation counters
count exactly the recorded dilations and erosions. -/
theorem cvDilateErode_order_and_counters (code c1 c2 : List Char) (mask : Grid ℚ) :
    (cvDilateErode (c1 ++ c2) mask).1 =
      (cvDilateErode c2 (cvDilateErode c1 mask).1).1 ∧
    (cvDilateErode code mask).2.1 = code.count 'd' ∧
    (cvDilateErode code mask).2.2 = code.count 'e' ∧
    cvDilateErode ['d'] mask = (cvDilate5 mask, 1, 0) ∧
    cvDilateErode ['e'] mask = (cvErode5 mask, 0, 1) := by
  refine ⟨?_, ?_, ?_, ?_, ?_⟩
  · rw [cvDilateErode, List.foldl_append]
    have h1 : c1.foldl deStep (mask, 0, 0) =
        ((c1.foldl deStep (mask, 0, 0)).1, (c1.foldl deStep (mask, 0, 0)).2.1,
          (c1.foldl deStep (mask, 0, 0)).2.2) := rfl
    rw [h1, de_foldl_mask]
    rfl
  · rw [cvDilateErode, de_foldl_countd]; omega
  · rw [cvDilateErode, de_foldl_counte]; omega
  · simp [cvDilateErode, deStep]
  · simp [cvDilateErode, deStep]

/-- Claim C3: on the half-integer areas the extractor produces, the size
filter passes index i if and only if |area[i] - area[r]| is at most
(s/100) * area[r], the tolerance being relative to the reference only;
and at tolerance 0 only a contour whose area exactly equals the
reference area may pass.  (The code tests np.isclose with its default
absolute tolerance 1e-8; on half-integer areas and a tolerance that the
code has rounded to one decimal place, that absolute term can never
bridge the gap, so the clean relative inequality characterises the
filter exactly.) -/
theorem sizeFilter_relative_to_reference (sizes : List ℚ) (r i : ℕ) (s0 : ℚ)
    (hhalf : ∀ a ∈ sizes, ∃ n : ℕ, a = (n : ℚ) / 2)
    (hr : r < sizes.length) (hi : i < sizes.length) :
    (i ∈ sizeSurvivors sizes r (sizeTolUsed s0) ↔
      |sizes.getD i 0 - sizes.getD r 0| ≤
        sizeTolUsed s0 / 100 * sizes.getD r 0) ∧
    (sizeTolUsed s0 = 0 → i ∈ sizeSurvivors sizes r (sizeTolUsed s0) →
      sizes.getD i 0 = sizes.getD r 0) := by
  obtain ⟨k, hk⟩ := sizeTolUsed_shape s0
  obtain ⟨n, hn⟩ := hhalf _ (getD_mem_of_lt sizes i hi 0)
  obtain ⟨m, hm⟩ := hhalf _ (getD_mem_of_lt sizes r hr 0)
  have main : i ∈ sizeSurvivors sizes r (sizeTolUsed s0) ↔
      |sizes.getD i 0 - sizes.getD r 0| ≤
        sizeTolUsed s0 / 100 * sizes.getD r 0 := by
    rw [mem_sizeSurvivors]
    constructor
    · rintro ⟨-, hcl⟩
      rw [npIsClose_iff] at hcl
      rw [hn, hm, hk] at hcl ⊢
      exact halfint_atol_absorb n m k (by convert hcl using 3)
    · intro hle
      refine ⟨hi, ?_⟩
      rw [npIsClose_iff]
      have hb : |sizes.getD r 0| = sizes.getD r 0 := by
        rw [hm]; exact abs_of_nonneg (by positivity)
      rw [hb]
      linarith
  refine ⟨main, fun hs hmem => ?_⟩
  have := main.mp hmem
  rw [hs] at this
  simp only [zero_div, zero_mul] at this
  have h0 : |sizes.getD i 0 - sizes.getD r 0| = 0 := le_antisymm this (abs_nonneg _)
  have := abs_eq_zero.mp h0
  linarith

/-- Witness for C3 at concrete data: areas 6 and 13/2, reference index
0, slider value 10 (so tolerance 10 percent). -/
theorem sizeFilter_relative_to_reference_witness :
    (∀ a ∈ [(6 : ℚ), 13/2], ∃ n : ℕ, a = (n : ℚ) / 2) ∧
    (1 ∈ sizeSurvivors [(6 : ℚ), 13/2] 0 (sizeTolUsed 10) ↔
      |([(6 : ℚ), 13/2].getD 1 0) - ([(6 : ℚ), 13/2].getD 0 0)| ≤
        sizeTolUsed 10 / 100 * ([(6 : ℚ), 13/2].getD 0 0)) := by
  have hhalf : ∀ a ∈ [(6 : ℚ), 13/2], ∃ n : ℕ, a = (n : ℚ) / 2 := by
    intro a ha
    rcases List.mem_pair.mp ha with h | h
    · exact ⟨12, by rw [h]; norm_num⟩
    · exact ⟨13, by rw [h]; norm_num⟩
  exact ⟨hhalf, (sizeFilter_relative_to_reference [(6 : ℚ), 13/2] 0 1 10 hhalf
    (by norm_num) (by norm_num)).1⟩

/-- Claim C2 counterexample: the claim that the shape score normalizes
the invariant differences by the reference value is false at a concrete
input.  Two translated 4 by 4 squares (equal areas, so the size filter
keeps both) with descriptor components [2] for the candidate and [1] for
the reference and shape tolerance 0.7: the code includes the candidate
(cv2.matchShapes normalizes by its first argument, the candidate, giving
score 1/2 < 0.7), while the reference-normalized score of the claim is
1, not below 0.7, so the claimed iff fails. -/
theorem shapeScore_not_reference_normalized :
    ¬ (∀ (cd : ContourData) (hu : Contour → List ℚ) (r : ℕ) (s0 d0 : ℚ) (i : ℕ),
        i ∈ getSimilar cd hu r s0 d0 ↔
          i ∈ sizeSurvivors cd.sizes r (sizeTolUsed s0) ∧
            specShapeScore (hu (cd.contours.getD i []))
              (hu (cd.contours.getD r [])) < shapeTolUsed d0) := by
  intro h
  have h1 := h ⟨[[((0:ℤ),(0:ℤ)),(4,0),(4,4),(0,4)],
      [((10:ℤ),(0:ℤ)),(14,0),(14,4),(10,4)]], [16, 16]⟩
    (fun c => if c = [((0:ℤ),(0:ℤ)),(4,0),(4,4),(0,4)] then [1] else [2])
    0 0 (7/10) 1
  have hmem : (1:ℕ) ∈ getSimilar ⟨[[((0:ℤ),(0:ℤ)),(4,0),(4,4),(0,4)],
      [((10:ℤ),(0:ℤ)),(14,0),(14,4),(10,4)]], [16, 16]⟩
      (fun c => if c = [((0:ℤ),(0:ℤ)),(4,0),(4,4),(0,4)] then [1] else [2])
      0 0 (7/10) := by
    norm_num [getSimilar, sizeSurvivors, npIsClose, matchShapesI3, sizeTolUsed,
      shapeTolUsed, npRound, npClip, roundHalfEven, List.range_succ]
  have h2 := (h1.mp hmem).2
  norm_num [specShapeScore, shapeTolUsed, npRound, npClip, roundHalfEven] at h2

/-- Claim C2 as amended: for every size-surviving candidate the code
includes it iff its matchShapes I3 score against the reference is
strictly below the shape tolerance d, where the score is the maximum
over invariant components of |value_candidate - value_reference|
normalized by |value_CANDIDATE| (the first matchShapes argument at the
call site), and the score of two identical descriptors is 0. -/
theorem getSimilar_candidate_normalized (cd : ContourData)
    (hu : Contour → List ℚ) (r : ℕ) (s0 d0 : ℚ) (i : ℕ)
    (hd : 0 < shapeTolUsed d0) :
    (i ∈ getSimilar cd hu r s0 d0 ↔
      i ∈ sizeSurvivors cd.sizes r (sizeTolUsed s0) ∧
        ∀ p ∈ (hu (cd.contours.getD i [])).zip (hu (cd.contours.getD r [])),
          |p.1 - p.2| / |p.1| < shapeTolUsed d0) ∧
    (∀ v : List ℚ, matchShapesI3 v v = 0) := by
  refine ⟨?_, matchShapesI3_self⟩
  rw [mem_getSimilar, matchShapesI3_lt_iff]
  constructor
  · rintro ⟨hs, -, hall⟩
    exact ⟨hs, hall⟩
  · rintro ⟨hs, hall⟩
    exact ⟨hs, hd, hall⟩

/-- Witness for the amended C2 at shape tolerance 0.7 with singleton
descriptors [2] against [1]. -/
theorem getSimilar_candidate_normalized_witness :
    0 < shapeTolUsed (7/10) ∧
    ((1 ∈ getSimilar ⟨[[((0:ℤ),(0:ℤ)),(4,0),(4,4),(0,4)],
        [((10:ℤ),(0:ℤ)),(14,0),(14,4),(10,4)]], [16, 16]⟩
        (fun c => if c = [((0:ℤ),(0:ℤ)),(4,0),(4,4),(0,4)] then [1] else [2])
        0 0 (7/10) ↔
      1 ∈ sizeSurvivors [16, 16] 0 (sizeTolUsed 0) ∧
        ∀ p ∈ ([(2:ℚ)].zip [(1:ℚ)]),
          |p.1 - p.2| / |p.1| < shapeTolUsed (7/10)) ∧
      (∀ v : List ℚ, matchShapesI3 v v = 0)) := by
  have hd : 0 < shapeTolUsed (7/10) := by
    norm_num [shapeTolUsed, npRound, npClip, roundHalfEven]
  refine ⟨hd, ?_⟩
  have h := getSimilar_candidate_normalized ⟨[[((0:ℤ),(0:ℤ)),(4,0),(4,4),(0,4)],
      [((10:ℤ),(0:ℤ)),(14,0),(14,4),(10,4)]], [16, 16]⟩
    (fun c => if c = [((0:ℤ),(0:ℤ)),(4,0),(4,4),(0,4)] then [1] else [2])
    0 0 (7/10) 1 hd
  convert h using 3

/-- Claim C5: after each manual add/remove operation (a shift-click while
a similar-contour list exists) and after each tolerance change, the
effective zone set equals (matched union manuallyAdded) minus
manuallyRemoved, and a tolerance change clears manuallyRemoved while
preserving manuallyAdded.  The state is universally quantified, so the
invariant holds after every operation of any sequence. -/
theorem effective_set_algebra (cd : ContourData) (hu : Contour → List ℚ)
    (r : ℕ) (st : MatchState) (e : MEvent)
    (hclick : ∀ i : ℤ, e = .click i → st.closeInds ≠ []) :
    (∀ x : ℤ, x ∈ (mStep cd hu r st e).closeIndsPlus ↔
      ((x ∈ (mStep cd hu r st e).closeInds ∨ x ∈ (mStep cd hu r st e).addConts) ∧
        x ∉ (mStep cd hu r st e).removeConts)) ∧
    (∀ s0 d0 : ℚ, e = .retune s0 d0 →
      (mStep cd hu r st e).removeConts = [] ∧
      (mStep cd hu r st e).addConts = st.addConts) := by
  cases e with
  | click i =>
    have hne := hclick i rfl
    constructor
    · intro x
      simp only [mStep, appendContour, if_neg hne]
      rw [mem_setdiff1d, mem_union1d]
    · intro s0 d0 h
      simp at h
  | retune s0 d0 =>
    constructor
    · intro x
      simp only [mStep, getSimilarUpdate]
      rw [mem_union1d]
      simp
    · intro s1 d1 h
      exact ⟨rfl, rfl⟩

/-- Witness for C5: clicking index 5 while the matched set is [0, 1]. -/
theorem effective_set_algebra_witness :
    (([0, 1] : List ℤ) ≠ []) ∧
    ((∀ x : ℤ, x ∈ (mStep ⟨[], []⟩ (fun _ => []) 0 ⟨[0, 1], [], [], [0, 1]⟩
        (.click 5)).closeIndsPlus ↔
      ((x ∈ (mStep ⟨[], []⟩ (fun _ => []) 0 ⟨[0, 1], [], [], [0, 1]⟩
          (.click 5)).closeInds ∨
        x ∈ (mStep ⟨[], []⟩ (fun _ => []) 0 ⟨[0, 1], [], [], [0, 1]⟩
          (.click 5)).addConts) ∧
        x ∉ (mStep ⟨[], []⟩ (fun _ => []) 0 ⟨[0, 1], [], [], [0, 1]⟩
          (.click 5)).removeConts)) ∧
    (∀ s0 d0 : ℚ, MEvent.click 5 = .retune s0 d0 →
      (mStep ⟨[], []⟩ (fun _ => []) 0 ⟨[0, 1], [], [], [0, 1]⟩
        (.click 5)).removeConts = [] ∧
      (mStep ⟨[], []⟩ (fun _ => []) 0 ⟨[0, 1], [], [], [0, 1]⟩
        (.click 5)).addConts = [])) :=
  ⟨by decide, effective_set_algebra ⟨[], []⟩ (fun _ => []) 0
    ⟨[0, 1], [], [], [0, 1]⟩ (.click 5) (fun i h => by decide)⟩

/-- The extractor output keeps the size and contour arrays parallel. -/
lemma cvContour_len (found : List Contour) :
    (cvContour found).sizes.length = (cvContour found).contours.length := by
  simp [cvContour]

/-- Every member of the filtered contour list has area above 5. -/
lemma cvContour_mem_area (found : List Contour) :
    ∀ c ∈ (cvContour found).contours, 5 < contourArea c := by
  intro c hc
  simp only [cvContour, List.mem_map] at hc
  obtain ⟨i, hi, rfl⟩ := hc
  have hdec := (List.mem_filter.mp hi).2
  have hlt : i < (found.map contourArea).length := mem_keep_lt _ _ i hi
  rw [decide_eq_true_iff] at hdec
  rwa [getD_map_of_lt contourArea found i (by simpa using hlt) 0 []] at hdec

/-- Matcher output indices are in range of the size array. -/
lemma getSimilar_lt (cd : ContourData) (hu : Contour → List ℚ) (r : ℕ)
    (s0 d0 : ℚ) : ∀ i ∈ getSimilar cd hu r s0 d0, i < cd.sizes.length := by
  intro i hi
  exact ((mem_sizeSurvivors _ _ _ _).mp ((mem_getSimilar _ _ _ _ _ _).mp hi).1).1

/-- One matcher step preserves state well-formedness, provided a clicked
index is the sentinel -1 or a valid contour index. -/
lemma stGood_step (cd : ContourData) (hu : Contour → List ℚ) (r : ℕ)
    (hlen : cd.sizes.length = cd.contours.length)
    (st : MatchState) (e : MEvent) (hst : stGood cd.contours.length st)
    (hclick : ∀ i : ℤ, e = .click i →
      (i = -1 ∨ (0 ≤ i ∧ i < (cd.contours.length : ℤ)))) :
    stGood cd.contours.length (mStep cd hu r st e) := by
  obtain ⟨hci, hac, hane, hcip, hcipne⟩ := hst
  cases e with
  | click i =>
    have hgood := hclick i rfl
    by_cases hne : st.closeInds = []
    · simp only [mStep, appendContour, if_pos hne]
      exact ⟨by simp, by simp, by simp, hcip, hcipne⟩
    · obtain ⟨y, hy⟩ := List.exists_mem_of_ne_nil _ hne
      have hpos : 0 < cd.contours.length := by
        have := hci y hy
        omega
      have haddmem : ∀ x ∈ (if i ∉ st.closeInds ∧ i ∉ st.addConts then st.addConts ++ [i]
          else if i ∉ st.closeInds ∧ i ∈ st.addConts then st.addConts.erase i
          else st.addConts), x = -1 ∨ (0 ≤ x ∧ x < (cd.contours.length : ℤ)) := by
        intro x hx
        split_ifs at hx with h1 h2
        · rcases List.mem_append.mp hx with hx4 | hx4
          · exact hac x hx4
          · rcases List.mem_singleton.mp hx4 with rfl
            exact hgood
        · exact hac x (List.mem_of_mem_erase hx)
        · exact hac x hx
      simp only [mStep, appendContour, if_neg hne]
      refine ⟨hci, haddmem, fun _ => hpos, ?_, fun _ => hpos⟩
      intro x hx
      have hx2 := ((mem_setdiff1d _ _ _).mp hx).1
      rcases (mem_union1d _ _ _).mp hx2 with hx3 | hx3
      · exact Or.inr (hci x hx3)
      · exact haddmem x hx3
  | retune s0 d0 =>
    simp only [mStep, getSimilarUpdate]
    have hnew : ∀ x ∈ (getSimilar cd hu r s0 d0).map Int.ofNat,
        0 ≤ x ∧ x < (cd.contours.length : ℤ) := by
      intro x hx
      obtain ⟨j, hj, rfl⟩ := List.mem_map.mp hx
      have := getSimilar_lt cd hu r s0 d0 j hj
      rw [hlen] at this
      constructor
      · exact Int.ofNat_nonneg j
      · rw [Int.ofNat_eq_natCast]
        exact_mod_cast this
    refine ⟨hnew, hac, hane, ?_, ?_⟩
    · intro x hx
      rcases (mem_union1d _ _ _).mp hx with hx2 | hx2
      · exact Or.inr (hnew x hx2)
      · exact hac x hx2
    · intro hne
      obtain ⟨y, hy⟩ := List.exists_mem_of_ne_nil _ hne
      rcases (mem_union1d _ _ _).mp hy with hy2 | hy2
      · have := hnew y hy2
        omega
      · exact hane (List.ne_nil_of_mem hy2)

/-- Well-formedness is preserved along any run of matcher events whose
clicks all carry the sentinel or a valid index. -/
lemma stGood_run (cd : ContourData) (hu : Contour → List ℚ) (r : ℕ)
    (hlen : cd.sizes.length = cd.contours.length) (es : List MEvent) :
    ∀ st : MatchState, stGood cd.contours.length st →
    (∀ e ∈ es, ∀ i : ℤ, e = .click i →
      (i = -1 ∨ (0 ≤ i ∧ i < (cd.contours.length : ℤ)))) →
    stGood cd.contours.length (mRun cd hu r st es) := by
  induction es with
  | nil => intro st hst _; exact hst
  | cons e es ih =>
    intro st hst hclick
    have h1 := stGood_step cd hu r hlen st e hst
      (fun i hi => hclick e (List.mem_cons_self e es) i hi)
    exact ih (mStep cd hu r st e) h1
      (fun e2 he2 i hi => hclick e2 (List.mem_cons_of_mem e he2) i hi)

/-- Claim C10: starting from the reset selection state, after any
sequence of matcher operations whose clicked indices come from the
display handler (the sentinel -1 for a click outside every contour, or
an index into the filtered contour list), every member of the effective
set refers, under Python indexing, to a contour whose zeroth moment m00
is nonzero: the extractor's area-above-5 filter guarantees it, so the
centroid divisions m10/m00 and m01/m00 in findCenters cannot divide by
zero. -/
theorem findCenters_moment_nonzero (found : List Contour)
    (hu : Contour → List ℚ) (r : ℕ) (es : List MEvent)
    (hclick : ∀ e ∈ es, ∀ i : ℤ, e = .click i →
      (i = -1 ∨ (0 ≤ i ∧ i < ((cvContour found).contours.length : ℤ)))) :
    ∀ x ∈ (mRun (cvContour found) hu r ⟨[], [], [], []⟩ es).closeIndsPlus,
      m00 (pyGetD (cvContour found).contours x) ≠ 0 := by
  intro x hx
  have hinit : stGood (cvContour found).contours.length ⟨[], [], [], []⟩ := by
    refine ⟨by simp, by simp, by simp, by simp, by simp⟩
  have hfin := stGood_run (cvContour found) hu r (cvContour_len found) es
    ⟨[], [], [], []⟩ hinit hclick
  have hgood := hfin.2.2.2.1 x hx
  have hpos : 0 < (cvContour found).contours.length :=
    hfin.2.2.2.2 (List.ne_nil_of_mem hx)
  have harea : ∀ c ∈ (cvContour found).contours, m00 c ≠ 0 := by
    intro c hc
    have h5 := cvContour_mem_area found c hc
    have hm : m00 c = contourArea c := rfl
    rw [hm]
    linarith
  rcases hgood with rfl | ⟨h0, hn⟩
  · have heq : pyGetD (cvContour found).contours (-1) =
        (cvContour found).contours.getD ((cvContour found).contours.length - 1) [] := by
      unfold pyGetD
      norm_num
    rw [heq]
    exact harea _ (getD_mem_of_lt _ _ (by omega) [])
  · have hx2 : x.toNat < (cvContour found).contours.length := by omega
    have heq : pyGetD (cvContour found).contours x =
        (cvContour found).contours.getD x.toNat [] := by
      unfold pyGetD
      rw [if_neg (by omega)]
    rw [heq]
    exact harea _ (getD_mem_of_lt _ _ hx2 [])

/-- Witness for C10: two translated 4 by 4 squares, a tolerance change
matching both, then a shift-click outside every contour (the sentinel
index -1, which Python indexing sends to the last contour). -/
theorem findCenters_moment_nonzero_witness :
    (∀ e ∈ [MEvent.retune 0 2, MEvent.click (-1)], ∀ i : ℤ, e = .click i →
      (i = -1 ∨ (0 ≤ i ∧ i < ((cvContour [[((0:ℤ),(0:ℤ)),(4,0),(4,4),(0,4)],
        [((10:ℤ),(0:ℤ)),(14,0),(14,4),(10,4)]]).contours.length : ℤ)))) ∧
    m00 (pyGetD (cvContour [[((0:ℤ),(0:ℤ)),(4,0),(4,4),(0,4)],
      [((10:ℤ),(0:ℤ)),(14,0),(14,4),(10,4)]]).contours (-1)) ≠ 0 := by
  have hclick : ∀ e ∈ [MEvent.retune 0 2, MEvent.click (-1)], ∀ i : ℤ,
      e = .click i →
      (i = -1 ∨ (0 ≤ i ∧ i < ((cvContour [[((0:ℤ),(0:ℤ)),(4,0),(4,4),(0,4)],
        [((10:ℤ),(0:ℤ)),(14,0),(14,4),(10,4)]]).contours.length : ℤ))) := by
    intro e he i hei
    rcases List.mem_cons.mp he with rfl | he2
    · simp at hei
    · rcases List.mem_cons.mp he2 with rfl | he3
      · left
        cases hei
        rfl
      · simp at he3
  refine ⟨hclick, ?_⟩
  refine findCenters_moment_nonzero [[((0:ℤ),(0:ℤ)),(4,0),(4,4),(0,4)],
    [((10:ℤ),(0:ℤ)),(14,0),(14,4),(10,4)]] (fun _ => [1]) 0
    [MEvent.retune 0 2, MEvent.click (-1)] hclick (-1) ?_
  norm_num [mRun, mStep, getSimilarUpdate, appendContour, getSimilar,
    sizeSurvivors, npIsClose, matchShapesI3, sizeTolUsed, shapeTolUsed,
    npRound, npClip, roundHalfEven, cvContour, argsortAsc, idxLe,
    contourArea, shoelace, cross, union1d, setdiff1d, List.insertionSort,
    List.orderedInsert, List.range_succ, List.rotate]
  rw [if_neg (by decide : ¬ ([0, 1] : List ℤ) = [])]
  decide

/-- Element access of a zip of parallel arrays of equal length, for any
index and defaults. -/
lemma getD_zip_parallel {α β : Type} (cs : List α) (zs : List β)
    (hlen : zs.length = cs.length) (i : ℕ) (dc : α) (dz : β) :
    (cs.zip zs).getD i (dc, dz) = (cs.getD i dc, zs.getD i dz) := by
  by_cases hi : i < cs.length
  · have hiz : i < (cs.zip zs).length := by
      rw [List.length_zip, hlen]
      simpa using hi
    rw [List.getD_eq_getElem _ _ hiz, List.getD_eq_getElem _ _ hi,
      List.getD_eq_getElem _ _ (by omega : i < zs.length)]
    exact List.getElem_zip
  · rw [List.getD_eq_default _ _ (by rw [List.length_zip, hlen]; omega),
      List.getD_eq_default _ _ (by omega), List.getD_eq_default _ _ (by omega)]

/-- Applying an index permutation to zipped parallel arrays is zipping
the individually permuted arrays: the same permutation acts identically
on every parallel per-zone array. -/
lemma applyPerm_zip {α β : Type} (inds : List ℕ) (cs : List α) (zs : List β)
    (hlen : zs.length = cs.length) (dc : α) (dz : β) :
    applyPerm inds (cs.zip zs) (dc, dz) =
      (applyPerm inds cs dc).zip (applyPerm inds zs dz) := by
  induction inds with
  | nil => rfl
  | cons i inds ih =>
    simp only [applyPerm, List.map_cons] at ih ⊢
    rw [List.zip_cons_cons, ← ih, getD_zip_parallel cs zs hlen]

/-- Claim C8: before records are emitted, the zone arrays are reordered
by the stable ascending (y, x) sort of the zone centers: the permuted
center list is sorted with y as primary and x as secondary key, the
index list is a permutation of the range, it acts identically on every
parallel per-zone array (zipping commutes with the permutation), ties
keep their original relative order, and on the spec's example
[(50,10),(10,10),(30,5)] (centers stored as (x, y)) the emitted order is
(30,5), (10,10), (50,10). -/
theorem reorder_row_major (cs : List (ℤ × ℤ)) (zs : List Zone)
    (hlen : zs.length = cs.length) :
    (applyPerm (lexsortInds cs) cs (0, 0)).Pairwise
      (fun p q => p.2 < q.2 ∨ (p.2 = q.2 ∧ p.1 ≤ q.1)) ∧
    (lexsortInds cs).Perm (List.range cs.length) ∧
    applyPerm (lexsortInds cs) (cs.zip zs) ((0, 0), ⟨[], (0, 0, 0, 0)⟩) =
      (applyPerm (lexsortInds cs) cs (0, 0)).zip
        (applyPerm (lexsortInds cs) zs ⟨[], (0, 0, 0, 0)⟩) ∧
    (∀ k l : ℕ, k < (lexsortInds cs).length → l < (lexsortInds cs).length →
      k < l →
      cs.getD ((lexsortInds cs).getD k 0) (0, 0) =
        cs.getD ((lexsortInds cs).getD l 0) (0, 0) →
      (lexsortInds cs).getD k 0 < (lexsortInds cs).getD l 0) ∧
    applyPerm (lexsortInds [((50:ℤ),(10:ℤ)), (10,10), (30,5)])
      [((50:ℤ),(10:ℤ)), (10,10), (30,5)] (0, 0) = [(30,5), (10,10), (50,10)] := by
  have hpw : List.Pairwise (centerLe cs) (lexsortInds cs) :=
    List.sorted_insertionSort (centerLe cs) (List.range cs.length)
  have hperm : (lexsortInds cs).Perm (List.range cs.length) :=
    List.perm_insertionSort _ _
  refine ⟨?_, hperm, applyPerm_zip _ _ _ hlen _ _, ?_, by decide⟩
  · unfold applyPerm
    rw [List.pairwise_map]
    refine hpw.imp ?_
    intro i j hij
    rcases hij with h | ⟨h, h2⟩
    · exact Or.inl h
    · refine Or.inr ⟨h, ?_⟩
      rcases h2 with h3 | ⟨h3, _⟩
      · exact le_of_lt h3
      · exact le_of_eq h3
  · intro k l hk hl hkl heq
    have hrel := List.pairwise_iff_getElem.mp hpw k l hk hl hkl
    have hnd : (lexsortInds cs).Nodup :=
      hperm.nodup_iff.mpr (List.nodup_range cs.length)
    rw [List.getD_eq_getElem _ _ hk, List.getD_eq_getElem _ _ hl] at heq ⊢
    have hne : (lexsortInds cs)[k] ≠ (lexsortInds cs)[l] := by
      intro hcontra
      have := (hnd.getElem_inj_iff).mp hcontra
      omega
    unfold centerLe at hrel
    rcases hrel with h | ⟨h, h2⟩
    · rw [heq] at h
      exact absurd h (lt_irrefl _)
    · rcases h2 with h3 | ⟨h3, h4⟩
      · rw [heq] at h3
        exact absurd h3 (lt_irrefl _)
      · exact lt_of_le_of_ne h4 hne

/-- Witness for C8: the example centers with three parallel zones. -/
theorem reorder_row_major_witness :
    (([⟨[], (0,0,0,0)⟩, ⟨[], (0,0,0,0)⟩, ⟨[], (0,0,0,0)⟩] : List Zone).length =
      ([((50:ℤ),(10:ℤ)), (10,10), (30,5)] : List (ℤ × ℤ)).length) ∧
    applyPerm (lexsortInds [((50:ℤ),(10:ℤ)), (10,10), (30,5)])
      [((50:ℤ),(10:ℤ)), (10,10), (30,5)] (0, 0) = [(30,5), (10,10), (50,10)] :=
  ⟨rfl, (reorder_row_major [((50:ℤ),(10:ℤ)), (10,10), (30,5)]
    [⟨[], (0,0,0,0)⟩, ⟨[], (0,0,0,0)⟩, ⟨[], (0,0,0,0)⟩] rfl).2.2.2.2⟩

/-- Length of a permuted parallel array is the length of the index list. -/
lemma applyPerm_length {α : Type} (inds : List ℕ) (xs : List α) (d : α) :
    (applyPerm inds xs d).length = inds.length := by
  simp [applyPerm]

/-- The lexsort index list has one index per center. -/
lemma lexsortInds_length (cs : List (ℤ × ℤ)) :
    (lexsortInds cs).length = cs.length := by
  unfold lexsortInds
  rw [List.length_insertionSort, List.length_range]

/-- Claim C4 counterexample: a zone whose mask has zero included pixels
inside its crop window does not abort the analysis: on a concrete one
zone run with an all-zero mask the embedded analyzeContours returns ok
and emits one record (the statistics being the undefined masked values,
rendered as the 0 of a zero-count division in the rational model), not
an EmptyZone failure, which refutes the claim that the run fails and no
CSV is emitted.  No EmptyZone error exists anywhere in the source. -/
theorem emptyZone_no_abort_counterexample :
    zoneIncludedCount ⟨[[0]], (0, 0, 1, 1)⟩ = 0 ∧
    (analyzeContours [[((10:ℚ), (50:ℚ), (100:ℚ))]] [[((0:ℚ), (0:ℚ), (0:ℚ))]]
      [[((0:ℚ), (0:ℚ), (0:ℚ))]] [((0:ℤ), (0:ℤ))] [⟨[[0]], (0, 0, 1, 1)⟩]
      true false false).isOk = true ∧
    (analyzeContours [[((10:ℚ), (50:ℚ), (100:ℚ))]] [[((0:ℚ), (0:ℚ), (0:ℚ))]]
      [[((0:ℚ), (0:ℚ), (0:ℚ))]] [((0:ℤ), (0:ℤ))] [⟨[[0]], (0, 0, 1, 1)⟩]
      true false false).toOption.map (fun out => out.2.length) = some 1 := by
  refine ⟨?_, ?_, ?_⟩ <;>
    norm_num [zoneIncludedCount, analyzeContours, saveColors, mkRow, csvHeader,
      analyzeZone, getAvColor, includedVals, listMean, listVar, chan1, chan2,
      chan3, cropG, rev3, lexsortInds, centerLe, applyPerm, List.insertionSort,
      List.orderedInsert, List.range_succ, List.enum, List.enumFrom,
      Except.isOk, Except.toOption, Except.toBool, Function.comp,
      List.take_succ_cons, List.take_zero, List.take_nil, List.flatten,
      List.filterMap_cons]

/-- Claim C4 as amended: sampling never aborts: with the RGB toggle on
(the only configuration in which saveColors survives at all, see C1) the
analysis returns ok and emits exactly one record per zone, whether or
not some zone's mask is empty in its crop window; the code has no
EmptyZone failure path and empty zones produce undefined (masked)
statistics rather than an abort. -/
theorem analyzeContours_emits_every_zone (imBGR imHSV imLAB : Grid Pixel)
    (centers : List (ℤ × ℤ)) (zones : List Zone) (hsvT labT : Bool)
    (hlen : zones.length = centers.length) :
    (analyzeContours imBGR imHSV imLAB centers zones true hsvT labT).isOk = true ∧
    (analyzeContours imBGR imHSV imLAB centers zones true hsvT labT).toOption.map
      (fun out => out.2.length) = some zones.length := by
  constructor
  · simp [analyzeContours, saveColors, Except.isOk, Except.toBool]
  · simp only [analyzeContours, saveColors, if_pos, Except.toOption, Option.map]
    rw [List.length_map, List.enum_length, List.length_map, applyPerm_length,
      lexsortInds_length, hlen]

/-- Witness for the amended C4 at the concrete empty-zone input. -/
theorem analyzeContours_emits_every_zone_witness :
    (([⟨[[0]], (0, 0, 1, 1)⟩] : List Zone).length =
      ([((0:ℤ), (0:ℤ))] : List (ℤ × ℤ)).length) ∧
    ((analyzeContours [[((10:ℚ), (50:ℚ), (100:ℚ))]] [[((0:ℚ), (0:ℚ), (0:ℚ))]]
      [[((0:ℚ), (0:ℚ), (0:ℚ))]] [((0:ℤ), (0:ℤ))] [⟨[[0]], (0, 0, 1, 1)⟩]
      true false false).isOk = true ∧
    (analyzeContours [[((10:ℚ), (50:ℚ), (100:ℚ))]] [[((0:ℚ), (0:ℚ), (0:ℚ))]]
      [[((0:ℚ), (0:ℚ), (0:ℚ))]] [((0:ℤ), (0:ℤ))] [⟨[[0]], (0, 0, 1, 1)⟩]
      true false false).toOption.map (fun out => out.2.length) =
        some ([⟨[[0]], (0, 0, 1, 1)⟩] : List Zone).length) :=
  ⟨rfl, analyzeContours_emits_every_zone [[((10:ℚ), (50:ℚ), (100:ℚ))]]
    [[((0:ℚ), (0:ℚ), (0:ℚ))]] [[((0:ℚ), (0:ℚ), (0:ℚ))]] [((0:ℤ), (0:ℤ))]
    [⟨[[0]], (0, 0, 1, 1)⟩] false false rfl⟩

/-- A population variance is nonnegative: it is a sum of squares over a
nonnegative count. -/
lemma listVar_nonneg (xs : List ℚ) : 0 ≤ listVar xs := by
  unfold listVar
  apply div_nonneg
  · apply List.sum_nonneg
    intro x hx
    obtain ⟨y, _, rfl⟩ := List.mem_map.mp hx
    positivity
  · positivity

/-- Claim C9: in every emitted record, the reported Gray value is
0.299 R + 0.587 G + 0.114 B applied to that zone's mean RGB values as
carried in the record's own RGB group, and the reported std Gray (the
square root of the carried squared value) equals
sqrt((0.299 stdR)^2 + (0.587 stdG)^2 + (0.114 stdB)^2) applied to the
per-channel standard deviations (square roots of the carried
variances). -/
theorem emitted_gray_is_weighted_rgb (imBGR imHSV imLAB : Grid Pixel)
    (centers : List (ℤ × ℤ)) (zones : List Zone) (hsvT labT : Bool)
    (out : String × List Row)
    (h : analyzeContours imBGR imHSV imLAB centers zones true hsvT labT = .ok out) :
    ∀ row ∈ out.2, ∀ av var : Pixel, row.rgb = some (av, var) →
      row.gray = 299/1000 * av.1 + 587/1000 * av.2.1 + 114/1000 * av.2.2 ∧
      Real.sqrt row.stdGraySq =
        Real.sqrt ((299/1000 * Real.sqrt var.1) ^ 2 +
          (587/1000 * Real.sqrt var.2.1) ^ 2 +
          (114/1000 * Real.sqrt var.2.2) ^ 2) := by
  intro row hrow av var hrgb
  simp only [analyzeContours, saveColors, if_pos] at h
  have hout2 : out.2 = ((applyPerm (lexsortInds centers) zones
      ⟨[], (0, 0, 0, 0)⟩).map (analyzeZone imBGR imHSV imLAB)).enum.map
      (fun p => mkRow true hsvT labT (p.1 + 1) p.2) := by
    rw [← Except.ok.inj h]
  rw [hout2] at hrow
  obtain ⟨p, hp, rfl⟩ := List.mem_map.mp hrow
  have hst : p.2 ∈ (applyPerm (lexsortInds centers) zones
      ⟨[], (0, 0, 0, 0)⟩).map (analyzeZone imBGR imHSV imLAB) := by
    rw [List.enum_eq_zip_range] at hp
    have := List.of_mem_zip (show (p.1, p.2) ∈ _ from hp)
    exact this.2
  obtain ⟨z, _, hz⟩ := List.mem_map.mp hst
  simp only [mkRow, if_pos] at hrgb
  have hpair : (p.2.avRGB, p.2.varRGB) = (av, var) := Option.some.inj hrgb
  injection hpair with h1 h2
  subst h1
  subst h2
  constructor
  · simp only [mkRow, dot3, grayWeights]
    ring
  · have hvar : 0 ≤ p.2.varRGB.1 ∧ 0 ≤ p.2.varRGB.2.1 ∧ 0 ≤ p.2.varRGB.2.2 := by
      rw [← hz]
      simp only [analyzeZone, rev3, getAvColor]
      exact ⟨listVar_nonneg _, listVar_nonneg _, listVar_nonneg _⟩
    congr 1
    simp only [mkRow, dot3, sq3, grayWeights]
    rw [mul_pow, mul_pow, mul_pow, Real.sq_sqrt (by exact_mod_cast hvar.1),
      Real.sq_sqrt (by exact_mod_cast hvar.2.1),
      Real.sq_sqrt (by exact_mod_cast hvar.2.2)]
    push_cast
    ring

/-- Witness for C9: a single-pixel zone whose pixel has RGB
(100, 50, 10) (stored BGR), mask fully included: the emitted Gray is
exactly 0.299*100 + 0.587*50 + 0.114*10 = 60.39. -/
theorem emitted_gray_is_weighted_rgb_witness :
    analyzeContours [[((10:ℚ), (50:ℚ), (100:ℚ))]] [[((0:ℚ), (0:ℚ), (0:ℚ))]]
      [[((0:ℚ), (0:ℚ), (0:ℚ))]] [((0:ℤ), (0:ℤ))] [⟨[[255]], (0, 0, 1, 1)⟩]
      true false false =
      .ok (csvHeader true false false,
        [⟨1, some ((100, 50, 10), (0, 0, 0)), 6039/100, 0, none, none, 1⟩]) ∧
    (∀ row ∈ [(⟨1, some ((100, 50, 10), (0, 0, 0)), 6039/100, 0, none, none, 1⟩ : Row)],
      ∀ av var : Pixel, row.rgb = some (av, var) →
      row.gray = 299/1000 * av.1 + 587/1000 * av.2.1 + 114/1000 * av.2.2 ∧
      Real.sqrt row.stdGraySq =
        Real.sqrt ((299/1000 * Real.sqrt var.1) ^ 2 +
          (587/1000 * Real.sqrt var.2.1) ^ 2 +
          (114/1000 * Real.sqrt var.2.2) ^ 2)) := by
  have hz : analyzeZone [[((10:ℚ), (50:ℚ), (100:ℚ))]] [[((0:ℚ), (0:ℚ), (0:ℚ))]]
      [[((0:ℚ), (0:ℚ), (0:ℚ))]] ⟨[[255]], (0, 0, 1, 1)⟩ =
      ⟨(100, 50, 10), (0, 0, 0), (0, 0, 0), (0, 0, 0), (0, 0, 0), (0, 0, 0), 1⟩ := by
    norm_num [analyzeZone, getAvColor, includedVals, listMean, listVar, chan1,
      chan2, chan3, cropG, rev3, Function.comp, List.take_succ_cons,
      List.take_zero, List.take_nil, List.flatten, List.filterMap_cons]
  have heval : analyzeContours [[((10:ℚ), (50:ℚ), (100:ℚ))]]
      [[((0:ℚ), (0:ℚ), (0:ℚ))]] [[((0:ℚ), (0:ℚ), (0:ℚ))]] [((0:ℤ), (0:ℤ))]
      [⟨[[255]], (0, 0, 1, 1)⟩] true false false =
      .ok (csvHeader true false false,
        [⟨1, some ((100, 50, 10), (0, 0, 0)), 6039/100, 0, none, none, 1⟩]) := by
    simp only [analyzeContours, lexsortInds, List.length_cons, List.length_nil,
      List.range_succ, List.range_zero, List.insertionSort, List.orderedInsert,
      applyPerm, List.map_cons, List.map_nil, List.getD_cons_zero,
      List.enum_eq_zip_range, List.zip_cons_cons, List.zip_nil_right,
      List.zip_nil_left, saveColors, if_true]
    rw [hz]
    norm_num [mkRow, csvHeader, dot3, sq3, grayWeights]
  exact ⟨heval, emitted_gray_is_weighted_rgb [[((10:ℚ), (50:ℚ), (100:ℚ))]]
    [[((0:ℚ), (0:ℚ), (0:ℚ))]] [[((0:ℚ), (0:ℚ), (0:ℚ))]] [((0:ℤ), (0:ℤ))]
    [⟨[[255]], (0, 0, 1, 1)⟩] false false _ heval⟩

/-- Claim C1 (divergence theorem): with the RGB toggle disabled the
analysis run does not emit the CSV at all, let alone its Gray columns:
saveColors reads the locals rgb and std_rgb that are only assigned
inside the RGB branch, so the run aborts with UnboundLocalError for
every image, zone set and combination of the other toggles. -/
theorem analyzeContours_rgb_off_aborts (imBGR imHSV imLAB : Grid Pixel)
    (centers : List (ℤ × ℤ)) (zones : List Zone) (hsvT labT : Bool) :
    analyzeContours imBGR imHSV imLAB centers zones false hsvT labT =
      .error .unboundLocalRGB := by
  simp [analyzeContours, saveColors]

end ColorScan
